import Mathlib

set_option linter.unusedVariables false

/- A verification development for the game-scoring web application in
src/app.py: the round-settlement handler, the setup and end-game routes, the
final-ranking computation of the PDF report, and the client-IP helpers are
embedded as pure Lean functions, and the behavioral properties stated about
them are proved or refuted below. Python floats carrying game scores are
modelled as exact rationals; Python dicts keyed by player name are modelled
as functions from names. -/

/- ----------------------------------------------------------------- -/
/- Python string primitives, spelled out so they evaluate in the kernel. -/
/- ----------------------------------------------------------------- -/

/-- Characters before the first occurrence of the separator (the whole list
when the separator is absent): Python s.split(c)[0] for a one-char c. -/
def takeUntil (c : Char) : List Char → List Char
  | [] => []
  | a :: r => if a = c then [] else a :: takeUntil c r

/-- Characters after the first occurrence of the separator ([] when the
separator is absent). -/
def dropPast (c : Char) : List Char → List Char
  | [] => []
  | a :: r => if a = c then r else dropPast c r

/-- Python s.split(c)[1] for a one-char separator: the slice between the
first and second occurrence. The source uses it only under a startswith
guard that guarantees the separator occurs. -/
def secondField (c : Char) (s : String) : String := ⟨takeUntil c (dropPast c s.data)⟩

/-- The whitespace set removed by Python str.strip(). -/
def pyIsSpace (c : Char) : Bool :=
  c == ' ' || c == '\t' || c == '\n' || c == '\x0d' || c == '\x0b' || c == '\x0c'

/-- Python str.strip(): remove leading and trailing whitespace. -/
def pyStrip (s : String) : String :=
  ⟨((s.data.dropWhile pyIsSpace).reverse.dropWhile pyIsSpace).reverse⟩

/-- Python s.split(c)[0] packaged on strings. -/
def splitFirst (c : Char) (s : String) : String := ⟨takeUntil c s.data⟩

/-- Whether the second list is an initial segment of the first. -/
def startsWithList : List Char → List Char → Bool
  | _, [] => true
  | [], _ :: _ => false
  | a :: r, b :: s => a == b && startsWithList r s

/-- Python str.startswith. -/
def pyStartsWith (s pre : String) : Bool := startsWithList s.data pre.data

/-- Python s.split(c) in full (used by the spec-side address classifier). -/
def splitAll (c : Char) : List Char → List (List Char)
  | [] => [[]]
  | a :: r =>
    if a = c then [] :: splitAll c r
    else
      match splitAll c r with
      | [] => [[a]]
      | g :: gs => (a :: g) :: gs

/-- The numeric value of one decimal digit, if the character is one. -/
def charDigit (c : Char) : Option Nat :=
  if '0' ≤ c ∧ c ≤ '9' then some (c.toNat - '0'.toNat) else none

/-- Accumulate a decimal numeral; `none` on any non-digit. -/
def digitsVal : List Char → Nat → Option Nat
  | [], acc => some acc
  | c :: r, acc =>
    match charDigit c with
    | some d => digitsVal r (acc * 10 + d)
    | none => none

/-- A non-empty all-digit group read as a number. -/
def octetVal : List Char → Option Nat
  | [] => none
  | l => digitsVal l 0

/- ----------------------------------------------------------------- -/
/- Client-IP resolution: get_real_ip (src/app.py lines 93-117).        -/
/- ----------------------------------------------------------------- -/

/-- The port-stripping step of get_real_ip (src/app.py lines 113-115):
truncate at the first colon when one occurs. -/
def stripPort (s : String) : String :=
  if s.data.contains ':' then splitFirst ':' s else s

/-- get_real_ip: `headers name` models request.headers.get(name, '') and
`remote_addr` models request.remote_addr. The source tries, in order,
X-Forwarded-For (first comma-separated entry), X-Real-IP,
HTTP_X_FORWARDED_FOR (first entry), HTTP_X_REAL_IP, the for= value of the
first entry of Forwarded, and finally the raw connection address; it then
truncates the result at its first colon and returns Unknown when empty. -/
def get_real_ip (headers : String → String) (remote_addr : String) : String :=
  let real_ip := pyStrip (splitFirst ',' (headers "X-Forwarded-For"))
  let real_ip := if real_ip = "" then pyStrip (headers "X-Real-IP") else real_ip
  let real_ip :=
    if real_ip = "" then pyStrip (splitFirst ',' (headers "HTTP_X_FORWARDED_FOR"))
    else real_ip
  let real_ip := if real_ip = "" then pyStrip (headers "HTTP_X_REAL_IP") else real_ip
  let real_ip :=
    if real_ip = "" then
      let forwarded := pyStrip (splitFirst ',' (headers "Forwarded"))
      if pyStartsWith forwarded "for=" then pyStrip (secondField '=' forwarded)
      else real_ip
    else real_ip
  let real_ip := if real_ip = "" then remote_addr else real_ip
  let real_ip := stripPort real_ip
  if real_ip = "" then "Unknown" else real_ip

/- ----------------------------------------------------------------- -/
/- Geolocation: get_ip_location (src/app.py lines 120-183).            -/
/- ----------------------------------------------------------------- -/

/-- Outcome of one attempted query of the ipinfo.io service, in the cases the
source distinguishes: a 200 response with parsed JSON fields (each
data.get(-, '')), a 200 response whose body fails to parse, a 429, any other
status, and a requests.RequestException. -/
inductive FetchResult where
  | success (city region country : String)
  | jsonFailure
  | rateLimited
  | otherStatus
  | requestFailure
  deriving DecidableEq

/-- Whether the attempt failed to produce a parsed 200 response. -/
def FetchResult.isFailure : FetchResult → Bool
  | .success _ _ _ => false
  | _ => true

/-- The local/intranet test of src/app.py line 126. -/
def isLocalIp (ip : String) : Bool :=
  ip == "127.0.0.1" || ip == "localhost" || pyStartsWith ip "192.168." ||
    pyStartsWith ip "10." || pyStartsWith ip "172.16." || pyStartsWith ip "172.31."

/-- The load-balancer list of src/app.py line 131. -/
def load_balancer_ips : List String := ["10.10.10.1", "10.0.0.1"]

/-- Region-string construction from a successful response (src/app.py lines
152-165): country, region (when distinct from the city) and city joined by
a comma, with a fixed fallback when all parts are blank. -/
def buildLocation (city region country : String) : String :=
  let parts : List String :=
    (if country ≠ "" then [country] else []) ++
      (if region ≠ "" ∧ region ≠ city then [region] else []) ++
      (if city ≠ "" then [city] else [])
  let location := String.intercalate ", " parts
  if location = "" then "未知地区" else location

/-- The two-attempt loop of src/app.py lines 138-178: a parsed 200 response
returns the built location, a 429 returns the IP echo at once, and a JSON
failure, another status or a request exception falls through to the next
attempt; when every attempt falls through the IP echo is returned. -/
def tryAttempts (ip : String) (oracle : Nat → FetchResult) : List Nat → String
  | [] => "IP: " ++ ip
  | a :: rest =>
    match oracle a with
    | .success city region country => buildLocation city region country
    | .rateLimited => "IP: " ++ ip
    | .jsonFailure => tryAttempts ip oracle rest
    | .otherStatus => tryAttempts ip oracle rest
    | .requestFailure => tryAttempts ip oracle rest

/-- get_ip_location: `oracle` gives the outcome of each network attempt.
Besides the resolved string, the Bool records whether the external service
was contacted at all. -/
def get_ip_location (ip : String) (oracle : Nat → FetchResult) : String × Bool :=
  if isLocalIp ip then ("本地网络", false)
  else if load_balancer_ips.contains ip then ("云平台负载均衡器", false)
  else (tryAttempts ip oracle [0, 1], true)

/-- Modelled from the spec: the "private/loopback ranges" of IPv4 addresses —
the RFC1918 private blocks 10.0.0.0/8, 172.16.0.0/12 and 192.168.0.0/16
together with the loopback block 127.0.0.0/8 — as a predicate on dotted-quad
strings. This definition follows the specification's words and exists only
to be compared with the source's isLocalIp test. -/
def specPrivateOrLoopback (ip : String) : Bool :=
  match (splitAll '.' ip.data).map octetVal with
  | [some a, some b, some c, some d] =>
    decide (a ≤ 255 ∧ b ≤ 255 ∧ c ≤ 255 ∧ d ≤ 255 ∧
      (a = 10 ∨ a = 127 ∨ (a = 172 ∧ 16 ≤ b ∧ b ≤ 31) ∨ (a = 192 ∧ b = 168)))
  | _ => false

/- ----------------------------------------------------------------- -/
/- The game data model and the setup route.                            -/
/- ----------------------------------------------------------------- -/

/-- The per-session game state: the session keys player_names, current_round,
scores and round_history installed in src/app.py lines 479-483. The totals
dict and the per-round dicts are modelled as functions from player names;
the Python dicts hold keys only for the roster (resp. the round's scoring
players), and every claim reads them only there. -/
@[ext]
structure GameState where
  player_names : List String
  current_round : Nat
  scores : String → ℚ
  round_history : List (String → Option ℚ)

/-- One POST to /setup: the declared player count, already parsed to an
integer as in line 464, and the raw name fields (`fields i` models
request.form.get("player" + toString i, '')). -/
structure SetupForm where
  player_count : Int
  fields : Nat → String

/-- The name-collection loop of src/app.py lines 467-472: for i in
1..player_count, strip the field and keep it when non-blank. -/
def collectNames (form : SetupForm) : List String :=
  (List.range' 1 form.player_count.toNat).filterMap fun i =>
    let n := pyStrip (form.fields i)
    if n = "" then none else some n

/-- The POST branch of the setup route (src/app.py lines 461-502): reject
when the number of collected names differs from the declared count,
otherwise install the fresh game state — round counter 1, every total 0,
empty round history. On rejection no session key is written, so the game
stays unset (AwaitingSetup). -/
def setup_game (form : SetupForm) : Except String GameState :=
  if ((collectNames form).length : Int) = form.player_count then
    .ok { player_names := collectNames form, current_round := 1,
          scores := fun _ => 0, round_history := [] }
  else .error "player name count mismatch"

/- ----------------------------------------------------------------- -/
/- The round-settlement handler (src/app.py lines 510-572).            -/
/- ----------------------------------------------------------------- -/

/-- The validation failures of the settlement handler, plus the
no-winner-selected check that precedes them (src/app.py lines 522-547). -/
inductive ScoreError where
  | noWinner
  | invalidScore (player : String) (value : ℚ)
  | missingScore (player : String)
  deriving DecidableEq

/-- One POST to /scoring: the selected winner (the empty string when the form
supplied none) and, per player, the score field after strip — `none` for a
blank field, otherwise the parsed number (Python float modelled as an exact
rational). -/
structure ScoreForm where
  winner : String
  entries : String → Option ℚ

/-- The validation-and-collection loop over the roster (src/app.py lines
531-547), threading the round_scores dict and the running total_negative: an
entered score that is non-negative for a non-winner stops with
invalidScore, a blank field of a non-winner stops with missingScore, and
otherwise the entry is stored and (for non-winners) added to the total. -/
def collectScores (winner : String) (entries : String → Option ℚ) :
    List String → (String → Option ℚ) → ℚ →
    Except ScoreError ((String → Option ℚ) × ℚ)
  | [], rs, tn => .ok (rs, tn)
  | p :: rest, rs, tn =>
    match entries p with
    | some s =>
      if p ≠ winner ∧ 0 ≤ s then .error (.invalidScore p s)
      else
        collectScores winner entries rest (fun q => if q = p then some s else rs q)
          (if p ≠ winner then tn + s else tn)
    | none =>
      if p ≠ winner then .error (.missingScore p)
      else collectScores winner entries rest rs tn

/-- The round dict after settlement (src/app.py line 550): the collected
entries with the winner's value overwritten by -total_negative. -/
def roundScores (winner : String) (rs0 : String → Option ℚ) (tn : ℚ) :
    String → Option ℚ :=
  fun q => if q = winner then some (-tn) else rs0 q

/-- The POST branch of the scoring route (src/app.py lines 519-566): require
a selected winner, run the collection loop, overwrite the winner's entry
with -total_negative, add every stored round value into the totals (the
items() loop over the round dict, pointwise on its keys), append the round
to the history and advance the round counter. Every validation failure
returns before any session write, exactly as the source's early returns do.
(The source's totals loop would raise a KeyError for a stored key outside
the roster, which can only be the submitted winner; no claim exercises an
off-roster winner, and the model leaves the totals function total.) -/
def scoringPost (st : GameState) (form : ScoreForm) : Except ScoreError GameState :=
  if form.winner = "" then .error .noWinner
  else
    match collectScores form.winner form.entries st.player_names (fun _ => none) 0 with
    | .error e => .error e
    | .ok (rs0, total_negative) =>
      let round_scores := roundScores form.winner rs0 total_negative
      .ok { st with
        scores := fun q => st.scores q + (round_scores q).getD 0,
        round_history := st.round_history ++ [round_scores],
        current_round := st.current_round + 1 }

/-- What the /scoring route reports back. -/
inductive ScoringResponse where
  | redirectSetup
  | errorMsg (e : ScoreError)
  | redirectScoring
  deriving DecidableEq

/-- The /scoring route (src/app.py lines 510-572): with no roster in the
session it redirects to setup; a failed settlement returns the error message
with the session untouched; a successful one stores the new state and
redirects back to the scoring page. -/
def scoring (sess : Option GameState) (form : ScoreForm) :
    Option GameState × ScoringResponse :=
  match sess with
  | none => (none, .redirectSetup)
  | some st =>
    match scoringPost st form with
    | .error e => (some st, .errorMsg e)
    | .ok st2 => (some st2, .redirectScoring)

/-- A sequence of round settlements folded over scoringPost; ok exactly when
every single settlement succeeded. -/
def settleAll : GameState → List ScoreForm → Except ScoreError GameState
  | st, [] => .ok st
  | st, f :: fs =>
    match scoringPost st f with
    | .error e => .error e
    | .ok st2 => settleAll st2 fs

/- ----------------------------------------------------------------- -/
/- The end-game route (src/app.py lines 574-643).                      -/
/- ----------------------------------------------------------------- -/

/-- The durable snapshot written into the persisted GameRecord at game end
(src/app.py lines 591-593): the serialized round history and totals. -/
structure GameRecordSnap where
  round_scores : List (String → Option ℚ)
  total_scores : String → ℚ

/-- The /end_game route: with no roster in the session it redirects to setup
and writes nothing; otherwise it finalizes the persisted GameRecord from the
session state and renders the PDF (both external effects), while removing or
changing no session key — lines 574-643 of src/app.py contain no session
write or pop, so the in-session GameState survives the end of the game. -/
def end_game (sess : Option GameState) : Option GameState × Option GameRecordSnap :=
  match sess with
  | none => (none, none)
  | some st => (some st, some ⟨st.round_history, st.scores⟩)

/- ----------------------------------------------------------------- -/
/- The final ranking of the PDF report (src/app.py line 334).          -/
/- ----------------------------------------------------------------- -/

/-- Stable descending insertion: the new element goes after every
strictly-greater element already placed and before the first
equal-or-smaller one. -/
def insertDesc (x : String × ℚ) : List (String × ℚ) → List (String × ℚ)
  | [] => [x]
  | y :: ys => if x.2 < y.2 then y :: insertDesc x ys else x :: y :: ys

/-- Stable descending sort by the score component, the specified behavior of
Python's sorted(-, key=lambda x: x[1], reverse=True): sort descending, and
keep elements with equal keys in their original order. -/
def sortDesc : List (String × ℚ) → List (String × ℚ)
  | [] => []
  | x :: xs => insertDesc x (sortDesc xs)

/-- The final-ranking list of generate_score_pdf (src/app.py line 334):
total_scores.items() — the totals dict created from the roster at setup, so
its items stand in roster order — sorted by score descending with Python's
stable sort. -/
def rankingList (player_names : List String) (total_scores : String → ℚ) :
    List (String × ℚ) :=
  sortDesc (player_names.map fun p => (p, total_scores p))

/-- The settled value total_negative reaches after the collection loop: the
sum of the entered scores of the non-winner roster players. -/
def nonWinnerSum (roster : List String) (winner : String)
    (entries : String → Option ℚ) : ℚ :=
  ((roster.filter fun p => p != winner).map fun p => (entries p).getD 0).sum

/- ----------------------------------------------------------------- -/
/- Helper lemmas about the collection loop.                            -/
/- ----------------------------------------------------------------- -/

theorem nonWinnerSum_nil (w : String) (e : String → Option ℚ) :
    nonWinnerSum [] w e = 0 := rfl

theorem nonWinnerSum_cons (p : String) (rest : List String) (w : String)
    (e : String → Option ℚ) :
    nonWinnerSum (p :: rest) w e =
      if p = w then nonWinnerSum rest w e
      else (e p).getD 0 + nonWinnerSum rest w e := by
  by_cases hp : p = w <;>
    simp [nonWinnerSum, List.filter_cons, hp]

/-- The collection loop processes an appended roster segment by segment. -/
theorem collectScores_append (w : String) (e : String → Option ℚ) :
    ∀ (l₁ l₂ : List String) (rs : String → Option ℚ) (tn : ℚ),
    collectScores w e (l₁ ++ l₂) rs tn =
      (collectScores w e l₁ rs tn).bind fun out =>
        collectScores w e l₂ out.1 out.2
  | [], l₂, rs, tn => by simp [collectScores, Except.bind]
  | p :: r, l₂, rs, tn => by
    simp only [List.cons_append, collectScores]
    cases he : e p with
    | some s =>
      by_cases hc : p ≠ w ∧ 0 ≤ s
      · simp [hc, Except.bind]
      · simp only [hc, if_false, if_neg hc]
        exact collectScores_append w e r l₂ _ _
    | none =>
      by_cases hc : p ≠ w
      · simp [hc, Except.bind]
      · simp only [hc, if_neg hc]
        exact collectScores_append w e r l₂ _ _

/-- When every non-winner of the segment has a strictly negative entry, the
loop succeeds, accumulates exactly the non-winner sum, and records each
non-winner's entry in the round dict. -/
theorem collectScores_valid (w : String) (e : String → Option ℚ) :
    ∀ (l : List String) (rs : String → Option ℚ) (tn : ℚ),
    (∀ p ∈ l, p ≠ w → ∃ v, e p = some v ∧ v < 0) →
    ∃ rs2, collectScores w e l rs tn = .ok (rs2, tn + nonWinnerSum l w e) ∧
      (∀ q, q ≠ w → q ∈ l → rs2 q = e q) ∧ (∀ q, q ∉ l → rs2 q = rs q) := by
  intro l
  induction l with
  | nil =>
    intro rs tn h
    refine ⟨rs, by simp [collectScores, nonWinnerSum_nil], ?_, fun q _ => rfl⟩
    intro q _ hq
    exact absurd hq (List.not_mem_nil q)
  | cons p rest ih =>
    intro rs tn h
    have hrest : ∀ q ∈ rest, q ≠ w → ∃ v, e q = some v ∧ v < 0 :=
      fun q hq => h q (List.mem_cons_of_mem p hq)
    by_cases hp : p = w
    · cases he : e p with
      | some s =>
        have hcond : ¬(p ≠ w ∧ 0 ≤ s) := by simp [hp]
        obtain ⟨rs2, hok, h1, h2⟩ :=
          ih (fun q => if q = p then some s else rs q) tn hrest
        refine ⟨rs2, ?_, ?_, ?_⟩
        · simp only [collectScores, he, if_neg hcond, if_neg (by simp [hp] :
            ¬p ≠ w), nonWinnerSum_cons, if_pos hp]
          exact hok
        · intro q hqw hq
          rcases List.mem_cons.1 hq with hq | hq
          · exact absurd (hq.trans hp) hqw
          · exact h1 q hqw hq
        · intro q hq
          have hq1 : q ∉ rest := fun hmem => hq (List.mem_cons_of_mem p hmem)
          have hq2 : q ≠ p := fun hqp => hq (hqp ▸ List.mem_cons_self p rest)
          rw [h2 q hq1, if_neg hq2]
      | none =>
        obtain ⟨rs2, hok, h1, h2⟩ := ih rs tn hrest
        refine ⟨rs2, ?_, ?_, ?_⟩
        · simp only [collectScores, he, if_neg (by simp [hp] : ¬p ≠ w),
            nonWinnerSum_cons, if_pos hp]
          exact hok
        · intro q hqw hq
          rcases List.mem_cons.1 hq with hq | hq
          · exact absurd (hq.trans hp) hqw
          · exact h1 q hqw hq
        · intro q hq
          exact h2 q fun hmem => hq (List.mem_cons_of_mem p hmem)
    · obtain ⟨v, hev, hv⟩ := h p (List.mem_cons_self p rest) hp
      have hcond : ¬(p ≠ w ∧ 0 ≤ v) := fun hc => absurd hv (not_lt.2 hc.2)
      obtain ⟨rs2, hok, h1, h2⟩ :=
        ih (fun q => if q = p then some v else rs q) (tn + v) hrest
      refine ⟨rs2, ?_, ?_, ?_⟩
      · simp only [collectScores, hev, if_neg hcond, if_pos hp,
          nonWinnerSum_cons, if_neg hp, hev, Option.getD_some]
        rw [hok, add_assoc]
      · intro q hqw hq
        rcases List.mem_cons.1 hq with hq | hq
        · by_cases hqr : q ∈ rest
          · exact h1 q hqw hqr
          · rw [h2 q hqr, hq, if_pos rfl, hev]
        · exact h1 q hqw hq
      · intro q hq
        have hq1 : q ∉ rest := fun hmem => hq (List.mem_cons_of_mem p hmem)
        have hq2 : q ≠ p := fun hqp => hq (hqp ▸ List.mem_cons_self p rest)
        rw [h2 q hq1, if_neg hq2]

/-- Conversely, a loop that returned ok validated every non-winner. -/
theorem collectScores_ok_valid (w : String) (e : String → Option ℚ) :
    ∀ (l : List String) (rs : String → Option ℚ) (tn : ℚ)
      (out : (String → Option ℚ) × ℚ),
    collectScores w e l rs tn = .ok out →
    ∀ p ∈ l, p ≠ w → ∃ v, e p = some v ∧ v < 0 := by
  intro l
  induction l with
  | nil => intro rs tn out _ p hp; exact absurd hp (List.not_mem_nil p)
  | cons p rest ih =>
    intro rs tn out hok q hq hqw
    cases he : e p with
    | some s =>
      by_cases hc : p ≠ w ∧ 0 ≤ s
      · simp only [collectScores, he, if_pos hc] at hok
        exact Except.noConfusion hok
      · simp only [collectScores, he, if_neg hc] at hok
        rcases List.mem_cons.1 hq with hq | hq
        · subst hq
          have hs : s < 0 := by
            by_contra hge
            exact hc ⟨hqw, le_of_not_lt hge⟩
          exact ⟨s, he, hs⟩
        · exact ih _ _ _ hok q hq hqw
    | none =>
      by_cases hc : p ≠ w
      · simp only [collectScores, he, if_pos hc] at hok
        exact Except.noConfusion hok
      · simp only [collectScores, he, if_neg hc] at hok
        rcases List.mem_cons.1 hq with hq | hq
        · subst hq; exact absurd hqw hc
        · exact ih _ _ _ hok q hq hqw

/-- Splitting a roster sum at the winner (roster without duplicates). -/
theorem sum_split_winner (w : String) (g : String → ℚ) :
    ∀ (l : List String), l.Nodup → w ∈ l →
    (l.map g).sum = g w + ((l.filter fun p => p != w).map g).sum := by
  intro l
  induction l with
  | nil => intro _ hw; exact absurd hw (List.not_mem_nil w)
  | cons p rest ih =>
    intro hn hw
    have hpr : p ∉ rest := (List.nodup_cons.1 hn).1
    have hnr : rest.Nodup := (List.nodup_cons.1 hn).2
    rcases List.mem_cons.1 hw with hp | hp
    · subst hp
      have hfr : rest.filter (fun p => p != w) = rest :=
        List.filter_eq_self.mpr fun a ha =>
          bne_iff_ne.mpr fun haw => hpr (haw ▸ ha)
      simp [List.filter_cons, hfr]
    · have hpw : p ≠ w := fun hpw => hpr (hpw ▸ hp)
      have := ih hnr hp
      simp only [List.map_cons, List.sum_cons, this, List.filter_cons,
        bne_iff_ne.mpr hpw, if_pos (bne_iff_ne.mpr hpw)]
      simp [bne_iff_ne.mpr hpw]
      ring

/-- The mapping a successful collection run produces, after the winner's
entry is overwritten, sums to zero over a duplicate-free roster containing
the winner. -/
theorem round_sum_zero (roster : List String) (w : String) (e : String → Option ℚ)
    (rs0 : String → Option ℚ) (tn : ℚ) (hn : roster.Nodup) (hw : w ∈ roster)
    (hok : collectScores w e roster (fun _ => none) 0 = .ok (rs0, tn)) :
    (roster.map fun p => (roundScores w rs0 tn p).getD 0).sum = 0 := by
  have hvalid := collectScores_ok_valid w e roster (fun _ => none) 0 (rs0, tn) hok
  obtain ⟨rs2, hok2, h1, h2⟩ := collectScores_valid w e roster (fun _ => none) 0 hvalid
  rw [hok] at hok2
  have hpair : rs0 = rs2 ∧ tn = 0 + nonWinnerSum roster w e := by
    have := Except.ok.inj hok2
    exact ⟨congrArg Prod.fst this, congrArg Prod.snd this⟩
  have htn : tn = nonWinnerSum roster w e := by rw [hpair.2, zero_add]
  set g : String → ℚ := fun p => (roundScores w rs0 tn p).getD 0 with hg
  have hsplit := sum_split_winner w g roster hn hw
  have hgw : g w = -tn := by simp [hg, roundScores]
  have hfilter :
      ((roster.filter fun p => p != w).map g).sum = nonWinnerSum roster w e := by
    have hcongr : ∀ p ∈ roster.filter fun p => p != w, g p = (e p).getD 0 := by
      intro p hp
      have hmem := (List.mem_filter.1 hp).1
      have hpw : p ≠ w := bne_iff_ne.mp (List.mem_filter.1 hp).2
      have hrs : rs0 p = e p := by
        rw [hpair.1]; exact h1 p hpw hmem
      simp [hg, roundScores, if_neg hpw, hrs]
    rw [List.map_congr_left hcongr, nonWinnerSum]
  rw [hsplit, hgw, hfilter, htn, neg_add_cancel]

/-- A settlement whose non-winners all entered strictly negative scores
succeeds, and the new state is exactly described. -/
theorem scoringPost_valid (st : GameState) (form : ScoreForm)
    (hne : form.winner ≠ "")
    (hvalid : ∀ p ∈ st.player_names, p ≠ form.winner →
      ∃ v, form.entries p = some v ∧ v < 0) :
    ∃ rs0 tn,
      collectScores form.winner form.entries st.player_names (fun _ => none) 0 =
        .ok (rs0, tn) ∧
      tn = nonWinnerSum st.player_names form.winner form.entries ∧
      (∀ q, q ≠ form.winner → q ∈ st.player_names → rs0 q = form.entries q) ∧
      scoringPost st form = .ok { st with
        scores := fun q => st.scores q + (roundScores form.winner rs0 tn q).getD 0,
        round_history := st.round_history ++ [roundScores form.winner rs0 tn],
        current_round := st.current_round + 1 } := by
  obtain ⟨rs2, hok, h1, h2⟩ :=
    collectScores_valid form.winner form.entries st.player_names (fun _ => none) 0 hvalid
  refine ⟨rs2, 0 + nonWinnerSum st.player_names form.winner form.entries, hok,
    (zero_add _), h1, ?_⟩
  rw [scoringPost, if_neg hne, hok]

/-- Inversion of a successful settlement: the collection loop returned ok
and the new state is the described update. -/
theorem scoringPost_ok_inv (st : GameState) (form : ScoreForm) (st2 : GameState)
    (h : scoringPost st form = .ok st2) :
    form.winner ≠ "" ∧ ∃ rs0 tn,
      collectScores form.winner form.entries st.player_names (fun _ => none) 0 =
        .ok (rs0, tn) ∧
      st2 = { st with
        scores := fun q => st.scores q + (roundScores form.winner rs0 tn q).getD 0,
        round_history := st.round_history ++ [roundScores form.winner rs0 tn],
        current_round := st.current_round + 1 } := by
  by_cases hne : form.winner = ""
  · rw [scoringPost, if_pos hne] at h
    exact Except.noConfusion h
  · refine ⟨hne, ?_⟩
    rw [scoringPost, if_neg hne] at h
    cases hc : collectScores form.winner form.entries st.player_names (fun _ => none) 0 with
    | error e => rw [hc] at h; exact Except.noConfusion h
    | ok out =>
      obtain ⟨rs0, tn⟩ := out
      rw [hc] at h
      exact ⟨rs0, tn, rfl, (Except.ok.inj h).symm⟩

/-- The collection loop never reads the winner's entry except to store it,
and the stored value is later overwritten: runs over entry maps that agree
off the winner fail identically or succeed with the same total and with
round dicts that agree off the winner. -/
theorem collectScores_congr (w : String) (e1 e2 : String → Option ℚ)
    (he : ∀ p, p ≠ w → e1 p = e2 p) :
    ∀ (l : List String) (rs1 rs2 : String → Option ℚ) (tn : ℚ),
    (∀ q, q ≠ w → rs1 q = rs2 q) →
    (∃ err, collectScores w e1 l rs1 tn = .error err ∧
            collectScores w e2 l rs2 tn = .error err) ∨
    (∃ o1 o2, collectScores w e1 l rs1 tn = .ok o1 ∧
              collectScores w e2 l rs2 tn = .ok o2 ∧
              o1.2 = o2.2 ∧ ∀ q, q ≠ w → o1.1 q = o2.1 q) := by
  intro l
  induction l with
  | nil =>
    intro rs1 rs2 tn hrs
    exact Or.inr ⟨(rs1, tn), (rs2, tn), rfl, rfl, rfl, hrs⟩
  | cons p rest ih =>
    intro rs1 rs2 tn hrs
    by_cases hp : p = w
    · have hpw : ¬p ≠ w := fun h => h hp
      have hqp : ∀ q : String, q ≠ w → ¬q = p := fun q hq hqp => hq (hqp.trans hp)
      have hnc : ∀ s : ℚ, ¬(p ≠ w ∧ 0 ≤ s) := fun s hc => hc.1 hp
      cases h1 : e1 p with
      | some s1 =>
        cases h2 : e2 p with
        | some s2 =>
          simp only [collectScores, h1, h2, if_neg (hnc s1), if_neg (hnc s2),
            if_neg hpw]
          refine ih _ _ tn ?_
          intro q hq
          show (if q = p then some s1 else rs1 q) = (if q = p then some s2 else rs2 q)
          rw [if_neg (hqp q hq), if_neg (hqp q hq)]
          exact hrs q hq
        | none =>
          simp only [collectScores, h1, h2, if_neg (hnc s1), if_neg hpw]
          refine ih _ _ tn ?_
          intro q hq
          show (if q = p then some s1 else rs1 q) = rs2 q
          rw [if_neg (hqp q hq)]
          exact hrs q hq
      | none =>
        cases h2 : e2 p with
        | some s2 =>
          simp only [collectScores, h1, h2, if_neg (hnc s2), if_neg hpw]
          refine ih _ _ tn ?_
          intro q hq
          show rs1 q = (if q = p then some s2 else rs2 q)
          rw [if_neg (hqp q hq)]
          exact hrs q hq
        | none =>
          simp only [collectScores, h1, h2, if_neg hpw]
          exact ih _ _ tn hrs
    · have hee : e1 p = e2 p := he p hp
      cases h1 : e1 p with
      | some s =>
        have h2 : e2 p = some s := hee ▸ h1
        by_cases hc : p ≠ w ∧ 0 ≤ s
        · refine Or.inl ⟨.invalidScore p s, ?_, ?_⟩
          · simp only [collectScores, h1, if_pos hc]
          · simp only [collectScores, h2, if_pos hc]
        · simp only [collectScores, h1, h2, if_neg hc]
          refine ih _ _ _ ?_
          intro q hq
          show (if q = p then some s else rs1 q) = (if q = p then some s else rs2 q)
          by_cases hqp : q = p
          · rw [if_pos hqp, if_pos hqp]
          · rw [if_neg hqp, if_neg hqp]
            exact hrs q hq
      | none =>
        have h2 : e2 p = none := hee ▸ h1
        refine Or.inl ⟨.missingScore p, ?_, ?_⟩
        · simp only [collectScores, h1, if_pos hp]
        · simp only [collectScores, h2, if_pos hp]

/- ----------------------------------------------------------------- -/
/- Claim theorems.                                                     -/
/- ----------------------------------------------------------------- -/

/-- C1: a round settlement that passes validation — a selected winner drawn
from the roster (duplicate-free, as the data model's name-uniqueness
requires) and a strictly negative entered score for every non-winner —
succeeds; the appended RoundResult gives the winner the negation of the sum
of the non-winner entries, and its values over the roster sum to exactly 0,
in particular to 0 within epsilon 1e-6. -/
theorem settlement_zero_sum (st : GameState) (form : ScoreForm)
    (hne : form.winner ≠ "") (hw : form.winner ∈ st.player_names)
    (hn : st.player_names.Nodup)
    (hvalid : ∀ p ∈ st.player_names, p ≠ form.winner →
      ∃ v, form.entries p = some v ∧ v < 0) :
    ∃ st2, scoringPost st form = .ok st2 ∧
      ∃ r, st2.round_history = st.round_history ++ [r] ∧
        r form.winner =
          some (-(nonWinnerSum st.player_names form.winner form.entries)) ∧
        (st.player_names.map fun p => (r p).getD 0).sum = 0 ∧
        |(st.player_names.map fun p => (r p).getD 0).sum| < 1e-6 := by
  obtain ⟨rs0, tn, hok, htn, h1, hpost⟩ := scoringPost_valid st form hne hvalid
  have hzero := round_sum_zero st.player_names form.winner form.entries rs0 tn hn hw hok
  refine ⟨_, hpost, roundScores form.winner rs0 tn, rfl, ?_, hzero, ?_⟩
  · simp [roundScores, htn]
  · rw [hzero]
    norm_num

/-- The three-player roster of the specification's walkthrough scenario, as
setup_game installs it. -/
def demoState : GameState :=
  { player_names := ["Alice", "Bob", "Carol"], current_round := 1,
    scores := fun _ => 0, round_history := [] }

/-- Round 1 of the scenario: winner Alice, Bob -3, Carol -2. -/
def demoForm1 : ScoreForm :=
  { winner := "Alice",
    entries := fun p => if p = "Bob" then some (-3) else
      if p = "Carol" then some (-2) else none }

/-- Round 1 again, but with a spurious value entered for the winner. -/
def demoForm1w : ScoreForm :=
  { winner := "Alice",
    entries := fun p => if p = "Alice" then some 100 else
      if p = "Bob" then some (-3) else
        if p = "Carol" then some (-2) else none }

/-- Witness for settlement_zero_sum at the scenario input. -/
theorem settlement_zero_sum_witness :
    demoForm1.winner ≠ "" ∧ demoForm1.winner ∈ demoState.player_names ∧
    demoState.player_names.Nodup ∧
    (∀ p ∈ demoState.player_names, p ≠ demoForm1.winner →
      ∃ v, demoForm1.entries p = some v ∧ v < 0) ∧
    (∃ st2, scoringPost demoState demoForm1 = .ok st2 ∧
      ∃ r, st2.round_history = demoState.round_history ++ [r] ∧
        r demoForm1.winner = some
          (-(nonWinnerSum demoState.player_names demoForm1.winner demoForm1.entries)) ∧
        (demoState.player_names.map fun p => (r p).getD 0).sum = 0 ∧
        |(demoState.player_names.map fun p => (r p).getD 0).sum| < 1e-6) := by
  have hvalid : ∀ p ∈ demoState.player_names, p ≠ demoForm1.winner →
      ∃ v, demoForm1.entries p = some v ∧ v < 0 := by
    intro p hp hpw
    have hp2 : p ∈ ["Alice", "Bob", "Carol"] := hp
    rcases List.mem_cons.1 hp2 with h | hp2
    · exact absurd h hpw
    rcases List.mem_cons.1 hp2 with h | hp2
    · subst h
      exact ⟨-3, by decide, by norm_num⟩
    rcases List.mem_cons.1 hp2 with h | hp2
    · subst h
      exact ⟨-2, by decide, by norm_num⟩
    · exact absurd hp2 (List.not_mem_nil p)
  exact ⟨by decide, by decide, by decide, hvalid,
    settlement_zero_sum demoState demoForm1 (by decide) (by decide) (by decide) hvalid⟩

/-- C10: the winner's own entered value is ignored — it never triggers
validation and never reaches the result, because line 550 overwrites it.
Two settlement requests over the same state that agree on the winner and on
every non-winner entry produce identical outcomes (the same error, or the
same new state with the same RoundResult), whatever the winner's own field
holds. -/
theorem winner_entry_ignored (st : GameState) (f1 f2 : ScoreForm)
    (hw : f1.winner = f2.winner)
    (he : ∀ p, p ≠ f1.winner → f1.entries p = f2.entries p) :
    scoringPost st f1 = scoringPost st f2 := by
  simp only [scoringPost, ← hw]
  by_cases hne : f1.winner = ""
  · rw [if_pos hne, if_pos hne]
  · rw [if_neg hne, if_neg hne]
    rcases collectScores_congr f1.winner f1.entries f2.entries he st.player_names
        (fun _ => none) (fun _ => none) 0 (fun _ _ => rfl)
      with ⟨err, hc1, hc2⟩ | ⟨o1, o2, hc1, hc2, htn, hrs⟩
    · rw [hc1, hc2]
    · obtain ⟨rs1, tn1⟩ := o1
      obtain ⟨rs2, tn2⟩ := o2
      have htn2 : tn1 = tn2 := htn
      have hfun : roundScores f1.winner rs1 tn1 = roundScores f1.winner rs2 tn2 := by
        funext q
        by_cases hq : q = f1.winner
        · simp only [roundScores, if_pos hq, htn2]
        · simp only [roundScores, if_neg hq]
          exact hrs q hq
      simp only [hc1, hc2, hfun]

/-- Witness for winner_entry_ignored: a spurious winner entry of 100 against
a blank winner field, over the scenario round. -/
theorem winner_entry_ignored_witness :
    demoForm1w.winner = demoForm1.winner ∧
    (∀ p, p ≠ demoForm1w.winner → demoForm1w.entries p = demoForm1.entries p) ∧
    scoringPost demoState demoForm1w = scoringPost demoState demoForm1 := by
  have he : ∀ p, p ≠ demoForm1w.winner → demoForm1w.entries p = demoForm1.entries p := by
    intro p hp
    have hp2 : ¬p = "Alice" := hp
    simp only [demoForm1w, demoForm1, if_neg hp2]
  exact ⟨rfl, he, winner_entry_ignored demoState demoForm1w demoForm1 rfl he⟩

/-- C2 (amended): when a winner is selected and some non-winner's entered
score is 0 or positive while every non-winner earlier in roster order has a
strictly negative entered score, the settlement fails with an
InvalidScoreError naming that player and value, and the /scoring route
returns with the session's GameState exactly as it was. -/
theorem invalid_entry_rejected (st : GameState) (form : ScoreForm)
    (l1 l2 : List String) (p : String) (v : ℚ)
    (hne : form.winner ≠ "")
    (hroster : st.player_names = l1 ++ p :: l2)
    (hp : p ≠ form.winner) (hv : form.entries p = some v) (hv0 : 0 ≤ v)
    (hbefore : ∀ q ∈ l1, q ≠ form.winner → ∃ x, form.entries q = some x ∧ x < 0) :
    scoring (some st) form = (some st, .errorMsg (.invalidScore p v)) := by
  obtain ⟨rs2, hok, h1, h2⟩ :=
    collectScores_valid form.winner form.entries l1 (fun _ => none) 0 hbefore
  have hcol : collectScores form.winner form.entries st.player_names
      (fun _ => none) 0 = .error (.invalidScore p v) := by
    rw [hroster, collectScores_append, hok]
    simp only [Except.bind]
    simp only [collectScores, hv, if_pos (And.intro hp hv0)]
  simp only [scoring, scoringPost, if_neg hne, hcol]

/-- A three-player state A, B, C as setup_game installs it. -/
def stABC : GameState :=
  { player_names := ["A", "B", "C"], current_round := 1,
    scores := fun _ => 0, round_history := [] }

/-- Winner A; B's field left blank; C enters 0. -/
def mixedFormBC : ScoreForm :=
  { winner := "A", entries := fun p => if p = "C" then some 0 else none }

/-- Counterexample to C2 as stated: C is a non-winner whose entered score is
0, yet the settlement does not fail with an InvalidScoreError identifying C
— the roster scan reaches B's missing entry first and fails with a
MissingScoreError for B instead (the state is still unchanged). -/
theorem invalid_entry_rejected_cex :
    mixedFormBC.entries "C" = some 0 ∧
    scoring (some stABC) mixedFormBC =
      (some stABC, .errorMsg (.missingScore "B")) ∧
    ScoreError.missingScore "B" ≠ ScoreError.invalidScore "C" 0 :=
  ⟨by decide, rfl, by decide⟩

/-- Winner A; B enters 0 (invalid); C enters -1. -/
def invalidFormB : ScoreForm :=
  { winner := "A",
    entries := fun p => if p = "B" then some 0 else
      if p = "C" then some (-1) else none }

/-- Witness for invalid_entry_rejected: B, the first offending non-winner,
entered 0 and is rejected with the state untouched. -/
theorem invalid_entry_rejected_witness :
    invalidFormB.winner ≠ "" ∧
    stABC.player_names = ["A"] ++ "B" :: ["C"] ∧
    "B" ≠ invalidFormB.winner ∧ invalidFormB.entries "B" = some 0 ∧ (0 : ℚ) ≤ 0 ∧
    (∀ q ∈ ["A"], q ≠ invalidFormB.winner →
      ∃ x, invalidFormB.entries q = some x ∧ x < 0) ∧
    scoring (some stABC) invalidFormB =
      (some stABC, .errorMsg (.invalidScore "B" 0)) := by
  have hbefore : ∀ q ∈ ["A"], q ≠ invalidFormB.winner →
      ∃ x, invalidFormB.entries q = some x ∧ x < 0 := by
    intro q hq hqw
    rcases List.mem_cons.1 hq with h | h
    · exact absurd h hqw
    · exact absurd h (List.not_mem_nil q)
  exact ⟨by decide, by decide, by decide, by decide, le_rfl, hbefore,
    invalid_entry_rejected stABC invalidFormB ["A"] ["C"] "B" 0 (by decide)
      (by decide) (by decide) (by decide) le_rfl hbefore⟩

/-- C3 (amended): when a winner is selected and some non-winner's field is
blank while every non-winner earlier in roster order has a strictly
negative entered score, the settlement fails with a MissingScoreError
naming that player, and the /scoring route returns with the session's
GameState exactly as it was. -/
theorem missing_entry_rejected (st : GameState) (form : ScoreForm)
    (l1 l2 : List String) (p : String)
    (hne : form.winner ≠ "")
    (hroster : st.player_names = l1 ++ p :: l2)
    (hp : p ≠ form.winner) (hv : form.entries p = none)
    (hbefore : ∀ q ∈ l1, q ≠ form.winner → ∃ x, form.entries q = some x ∧ x < 0) :
    scoring (some st) form = (some st, .errorMsg (.missingScore p)) := by
  obtain ⟨rs2, hok, h1, h2⟩ :=
    collectScores_valid form.winner form.entries l1 (fun _ => none) 0 hbefore
  have hcol : collectScores form.winner form.entries st.player_names
      (fun _ => none) 0 = .error (.missingScore p) := by
    rw [hroster, collectScores_append, hok]
    simp only [Except.bind]
    simp only [collectScores, hv, if_pos hp]
  simp only [scoring, scoringPost, if_neg hne, hcol]

/-- Winner A; B enters 0; C's field left blank. -/
def mixedFormCB : ScoreForm :=
  { winner := "A", entries := fun p => if p = "B" then some 0 else none }

/-- Counterexample to C3 as stated: C is a non-winner with no entered score,
yet the settlement does not fail with a MissingScoreError identifying C —
the roster scan reaches B's invalid entry first and fails with an
InvalidScoreError for B instead (the state is still unchanged). -/
theorem missing_entry_rejected_cex :
    mixedFormCB.entries "C" = none ∧
    scoring (some stABC) mixedFormCB =
      (some stABC, .errorMsg (.invalidScore "B" 0)) ∧
    ScoreError.invalidScore "B" 0 ≠ ScoreError.missingScore "C" :=
  ⟨by decide, rfl, by decide⟩

/-- Winner A; B enters -1; C's field left blank. -/
def missingFormC : ScoreForm :=
  { winner := "A", entries := fun p => if p = "B" then some (-1) else none }

/-- Witness for missing_entry_rejected: C, the first offending non-winner,
left the field blank and is rejected with the state untouched. -/
theorem missing_entry_rejected_witness :
    missingFormC.winner ≠ "" ∧
    stABC.player_names = ["A", "B"] ++ "C" :: [] ∧
    "C" ≠ missingFormC.winner ∧ missingFormC.entries "C" = none ∧
    (∀ q ∈ ["A", "B"], q ≠ missingFormC.winner →
      ∃ x, missingFormC.entries q = some x ∧ x < 0) ∧
    scoring (some stABC) missingFormC =
      (some stABC, .errorMsg (.missingScore "C")) := by
  have hbefore : ∀ q ∈ ["A", "B"], q ≠ missingFormC.winner →
      ∃ x, missingFormC.entries q = some x ∧ x < 0 := by
    intro q hq hqw
    rcases List.mem_cons.1 hq with h | hq
    · exact absurd h hqw
    rcases List.mem_cons.1 hq with h | hq
    · subst h
      exact ⟨-1, by decide, by norm_num⟩
    · exact absurd hq (List.not_mem_nil q)
  exact ⟨by decide, by decide, by decide, by decide, hbefore,
    missing_entry_rejected stABC missingFormC ["A", "B"] [] "C" (by decide)
      (by decide) (by decide) (by decide) hbefore⟩

/-- Pointwise addition under a mapped list sum. -/
theorem sum_map_add (l : List String) (f g : String → ℚ) :
    (l.map fun p => f p + g p).sum = (l.map f).sum + (l.map g).sum := by
  induction l with
  | nil => simp
  | cons a r ih => simp [ih]; ring

/-- A successful settlement preserves the roster. -/
theorem scoringPost_player_names (st : GameState) (form : ScoreForm)
    (st2 : GameState) (h : scoringPost st form = .ok st2) :
    st2.player_names = st.player_names := by
  obtain ⟨-, rs0, tn, -, hst⟩ := scoringPost_ok_inv st form st2 h
  rw [hst]

/-- Along any successful run of settlements, the roster is preserved, the
history grows by one round per settlement, and each player's total stays
the sum of that player's values over the recorded history. -/
theorem settleAll_totals (forms : List ScoreForm) :
    ∀ (st stN : GameState), settleAll st forms = .ok stN →
    (∀ p, st.scores p = (st.round_history.map fun r => (r p).getD 0).sum) →
    stN.player_names = st.player_names ∧
    stN.round_history.length = st.round_history.length + forms.length ∧
    (∀ p, stN.scores p = (stN.round_history.map fun r => (r p).getD 0).sum) := by
  induction forms with
  | nil =>
    intro st stN hrun hinv
    have hst : st = stN := Except.ok.inj hrun
    subst hst
    exact ⟨rfl, by simp, hinv⟩
  | cons f fs ih =>
    intro st stN hrun hinv
    rw [settleAll] at hrun
    cases hc : scoringPost st f with
    | error e => rw [hc] at hrun; exact Except.noConfusion hrun
    | ok st1 =>
      rw [hc] at hrun
      obtain ⟨-, rs0, tn, -, hst1⟩ := scoringPost_ok_inv st f st1 hc
      have hinv1 : ∀ p, st1.scores p =
          (st1.round_history.map fun r => (r p).getD 0).sum := by
        intro p
        rw [hst1]
        simp only [List.map_append, List.sum_append, List.map_cons,
          List.map_nil, List.sum_cons, List.sum_nil, add_zero]
        rw [hinv p]
      obtain ⟨hnames, hlen, hsums⟩ := ih st1 stN hrun hinv1
      refine ⟨hnames.trans (by rw [hst1]), ?_, hsums⟩
      rw [hlen, hst1]
      simp only [List.length_append, List.length_cons, List.length_nil]
      omega

/-- Along any successful run of settlements whose winners all come from the
(duplicate-free) roster, a zero total-sum is preserved. -/
theorem settleAll_zero (forms : List ScoreForm) :
    ∀ (st stN : GameState), settleAll st forms = .ok stN →
    st.player_names.Nodup →
    (∀ f ∈ forms, f.winner ∈ st.player_names) →
    (st.player_names.map st.scores).sum = 0 →
    stN.player_names = st.player_names ∧
    (st.player_names.map stN.scores).sum = 0 := by
  induction forms with
  | nil =>
    intro st stN hrun hnodup hwin hzero
    have hst : st = stN := Except.ok.inj hrun
    subst hst
    exact ⟨rfl, hzero⟩
  | cons f fs ih =>
    intro st stN hrun hnodup hwin hzero
    rw [settleAll] at hrun
    cases hc : scoringPost st f with
    | error e => rw [hc] at hrun; exact Except.noConfusion hrun
    | ok st1 =>
      rw [hc] at hrun
      obtain ⟨-, rs0, tn, hcol, hst1⟩ := scoringPost_ok_inv st f st1 hc
      have hrzero := round_sum_zero st.player_names f.winner f.entries rs0 tn
        hnodup (hwin f (List.mem_cons_self f fs)) hcol
      have hzero1 : (st1.player_names.map st1.scores).sum = 0 := by
        rw [hst1]
        simp only
        rw [sum_map_add st.player_names st.scores
          (fun q => (roundScores f.winner rs0 tn q).getD 0), hzero, hrzero, add_zero]
      have hnames1 : st1.player_names = st.player_names := by rw [hst1]
      have hwin1 : ∀ g ∈ fs, g.winner ∈ st1.player_names := by
        intro g hg
        rw [hnames1]
        exact hwin g (List.mem_cons_of_mem f hg)
      obtain ⟨hnamesN, hzeroN⟩ :=
        ih st1 stN hrun (hnames1 ▸ hnodup) hwin1 hzero1
      exact ⟨hnamesN.trans hnames1, hnames1 ▸ hzeroN⟩

/-- C4: starting from a freshly set-up game (all totals 0, empty history),
after any sequence of N successful settlements whose winners come from the
(duplicate-free) roster, the history holds N rounds, every player's running
total equals the sum of that player's values across the N recorded
RoundResults, and the totals over the roster sum to 0, in particular to 0
within epsilon 1e-6. -/
theorem totals_match_history (sform : SetupForm) (st0 stN : GameState)
    (forms : List ScoreForm)
    (hsetup : setup_game sform = .ok st0)
    (hnodup : st0.player_names.Nodup)
    (hwin : ∀ f ∈ forms, f.winner ∈ st0.player_names)
    (hrun : settleAll st0 forms = .ok stN) :
    stN.round_history.length = forms.length ∧
    (∀ p ∈ st0.player_names,
      stN.scores p = (stN.round_history.map fun r => (r p).getD 0).sum) ∧
    (st0.player_names.map stN.scores).sum = 0 ∧
    |(st0.player_names.map stN.scores).sum| < 1e-6 := by
  rw [setup_game] at hsetup
  split_ifs at hsetup with hcond
  · have hst0 := Except.ok.inj hsetup
    have hsc : st0.scores = fun _ => 0 := by rw [← hst0]
    have hrh : st0.round_history = [] := by rw [← hst0]
    have hinv0 : ∀ p, st0.scores p =
        (st0.round_history.map fun r => (r p).getD 0).sum := by
      intro p
      rw [hsc, hrh]
      simp
    have hzero0 : (st0.player_names.map st0.scores).sum = 0 := by
      rw [hsc]
      simp
    obtain ⟨-, hlen, hsums⟩ := settleAll_totals forms st0 stN hrun hinv0
    obtain ⟨-, hzero⟩ := settleAll_zero forms st0 stN hrun hnodup hwin hzero0
    refine ⟨by rw [hlen, hrh]; simp, fun p _ => hsums p, hzero, ?_⟩
    rw [hzero]
    norm_num

/-- The setup form of the walkthrough scenario: three players named Alice,
Bob and Carol. -/
def demoSetupForm : SetupForm :=
  { player_count := 3,
    fields := fun i => if i = 1 then "Alice" else
      if i = 2 then "Bob" else if i = 3 then "Carol" else "" }

/-- Round 2 of the scenario: winner Bob, Alice -1, Carol -4. -/
def demoForm2 : ScoreForm :=
  { winner := "Bob",
    entries := fun p => if p = "Alice" then some (-1) else
      if p = "Carol" then some (-4) else none }

/-- Witness for totals_match_history: the scenario's two rounds, run from
the scenario's setup. -/
theorem totals_match_history_witness :
    setup_game demoSetupForm = .ok demoState ∧
    demoState.player_names.Nodup ∧
    (∀ f ∈ [demoForm1, demoForm2], f.winner ∈ demoState.player_names) ∧
    ∃ stN, settleAll demoState [demoForm1, demoForm2] = .ok stN ∧
      stN.round_history.length = 2 ∧
      (∀ p ∈ demoState.player_names,
        stN.scores p = (stN.round_history.map fun r => (r p).getD 0).sum) ∧
      (demoState.player_names.map stN.scores).sum = 0 ∧
      |(demoState.player_names.map stN.scores).sum| < 1e-6 := by
  have hsetup : setup_game demoSetupForm = .ok demoState := rfl
  have hwin : ∀ f ∈ [demoForm1, demoForm2], f.winner ∈ demoState.player_names := by
    intro f hf
    rcases List.mem_cons.1 hf with h | hf
    · subst h; decide
    rcases List.mem_cons.1 hf with h | hf
    · subst h; decide
    · exact absurd hf (List.not_mem_nil f)
  have hisok : (settleAll demoState [demoForm1, demoForm2]).isOk = true := rfl
  cases hrun : settleAll demoState [demoForm1, demoForm2] with
  | error e =>
    rw [hrun] at hisok
    exact Bool.noConfusion hisok
  | ok stN =>
    obtain ⟨h1, h2, h3, h4⟩ := totals_match_history demoSetupForm demoState stN
      [demoForm1, demoForm2] hsetup (by decide) hwin hrun
    exact ⟨hsetup, by decide, hwin, stN, rfl, h1, h2, h3, h4⟩

/-- C5 (amended): the end-game action is not a terminal transition in this
code: it removes no session key, so the in-session GameState survives it
unchanged and a subsequent settlement attempt is processed exactly as
during play; the scoring route rejects an attempt (by redirecting to setup,
changing nothing) only when no game exists in the session at all. -/
theorem end_game_not_terminal (st : GameState) (form : ScoreForm) :
    (end_game (some st)).1 = some st ∧
    scoring ((end_game (some st)).1) form = scoring (some st) form ∧
    scoring none form = (none, .redirectSetup) :=
  ⟨rfl, rfl, rfl⟩

/-- Counterexample to C5 as stated: run round 1 of the scenario, then
end_game (which does write the final GameRecord), then attempt round 2.
The attempt is not rejected: the route answers with the success redirect
and the supposedly finalized in-session state has grown to two rounds. -/
theorem end_game_not_terminal_cex :
    (end_game ((scoring (some demoState) demoForm1).1)).2.isSome = true ∧
    (scoring ((end_game ((scoring (some demoState) demoForm1).1)).1) demoForm2).2 =
      ScoringResponse.redirectScoring ∧
    ((scoring ((end_game ((scoring (some demoState) demoForm1).1)).1) demoForm2).1.map
      fun s => s.round_history.length) = some 2 :=
  ⟨rfl, rfl, rfl⟩

/-- The length of a filterMap counts the elements the function keeps. -/
theorem length_filterMap_isSome {α β : Type} (f : α → Option β) :
    ∀ l : List α, (l.filterMap f).length = l.countP fun a => (f a).isSome := by
  intro l
  induction l with
  | nil => rfl
  | cons a r ih =>
    cases hf : f a with
    | none => simp [List.filterMap_cons, hf, List.countP_cons, ih]
    | some b => simp [List.filterMap_cons, hf, List.countP_cons, ih]

/-- C6 (amended): setup succeeds exactly when the number of non-blank name
fields among player1..playerN equals the declared count N — with no lower
bound on N, so a declared count of 0 with an empty roster also passes
(contrary to the claimed minimum of 1). On success the fresh state holds
the collected names, round counter 1, all totals 0 and an empty history;
on failure no state is installed and the game stays awaiting setup. -/
theorem setup_transition (form : SetupForm) :
    ((setup_game form).isOk = true ↔
      (((List.range' 1 form.player_count.toNat).countP
        fun i => !(pyStrip (form.fields i) == "")) : Int) = form.player_count) ∧
    ∀ st, setup_game form = .ok st →
      st.player_names = collectNames form ∧ st.current_round = 1 ∧
      (∀ p, st.scores p = 0) ∧ st.round_history = [] := by
  have hlen : ((collectNames form).length : Int) =
      (((List.range' 1 form.player_count.toNat).countP
        fun i => !(pyStrip (form.fields i) == "")) : Int) := by
    rw [collectNames, length_filterMap_isSome]
    congr 1
    apply List.countP_congr
    intro a _
    by_cases h : pyStrip (form.fields a) = ""
    · simp [h]
    · simp [h]
  constructor
  · rw [setup_game]
    split_ifs with hc
    · exact iff_of_true rfl (hlen ▸ hc)
    · constructor
      · intro h
        exact Bool.noConfusion h
      · intro h
        exact absurd (hlen.trans h) hc
  · intro st hst
    rw [setup_game] at hst
    split_ifs at hst with hc
    have h := Except.ok.inj hst
    exact ⟨by rw [← h], by rw [← h], fun p => by rw [← h], by rw [← h]⟩

/-- The empty setup form: declared player count 0, no field filled. -/
def emptySetupForm : SetupForm := { player_count := 0, fields := fun _ => "" }

/-- Counterexample to C6 as stated: a declared player count of 0 — below
the claimed minimum roster size of 1 — is accepted: setup succeeds and
installs an empty roster instead of staying in AwaitingSetup. -/
theorem setup_transition_cex :
    (setup_game emptySetupForm).isOk = true ∧
    ((setup_game emptySetupForm).toOption.map GameState.player_names) = some [] ∧
    ¬(1 ≤ emptySetupForm.player_count) :=
  ⟨rfl, rfl, by decide⟩

/-- Witness for setup_transition at the scenario's setup form. -/
theorem setup_transition_witness :
    ((setup_game demoSetupForm).isOk = true ↔
      (((List.range' 1 demoSetupForm.player_count.toNat).countP
        fun i => !(pyStrip (demoSetupForm.fields i) == "")) : Int) =
        demoSetupForm.player_count) ∧
    (demoState.player_names = collectNames demoSetupForm ∧
      demoState.current_round = 1 ∧ (∀ p, demoState.scores p = 0) ∧
      demoState.round_history = []) :=
  ⟨(setup_transition demoSetupForm).1,
   (setup_transition demoSetupForm).2 demoState rfl⟩

/-- Membership in a stable descending insertion. -/
theorem mem_insertDesc (x z : String × ℚ) :
    ∀ l : List (String × ℚ), z ∈ insertDesc x l ↔ z = x ∨ z ∈ l := by
  intro l
  induction l with
  | nil => simp [insertDesc]
  | cons y ys ih =>
    rw [insertDesc]
    by_cases h : x.2 < y.2
    · rw [if_pos h]
      simp only [List.mem_cons, ih]
      tauto
    · rw [if_neg h]
      exact List.mem_cons

/-- Insertion permutes with consing. -/
theorem perm_insertDesc (x : String × ℚ) :
    ∀ l : List (String × ℚ), (insertDesc x l).Perm (x :: l) := by
  intro l
  induction l with
  | nil => exact List.Perm.refl _
  | cons y ys ih =>
    rw [insertDesc]
    by_cases h : x.2 < y.2
    · rw [if_pos h]
      exact (ih.cons y).trans (List.Perm.swap x y ys)
    · rw [if_neg h]

/-- The stable sort is a permutation of its input. -/
theorem perm_sortDesc : ∀ l : List (String × ℚ), (sortDesc l).Perm l := by
  intro l
  induction l with
  | nil => exact List.Perm.refl _
  | cons x xs ih =>
    rw [sortDesc]
    exact (perm_insertDesc x (sortDesc xs)).trans (ih.cons x)

/-- Insertion keeps the list sorted descending by score. -/
theorem pairwise_insertDesc (x : String × ℚ) :
    ∀ l : List (String × ℚ), l.Pairwise (fun a b => b.2 ≤ a.2) →
    (insertDesc x l).Pairwise (fun a b => b.2 ≤ a.2) := by
  intro l
  induction l with
  | nil => intro _; exact List.pairwise_singleton _ x
  | cons y ys ih =>
    intro h
    obtain ⟨hy, hys⟩ := List.pairwise_cons.1 h
    rw [insertDesc]
    by_cases hc : x.2 < y.2
    · rw [if_pos hc]
      refine List.pairwise_cons.2 ⟨?_, ih hys⟩
      intro z hz
      rcases (mem_insertDesc x z ys).1 hz with hz | hz
      · subst hz
        exact le_of_lt hc
      · exact hy z hz
    · rw [if_neg hc]
      refine List.pairwise_cons.2 ⟨?_, h⟩
      intro z hz
      rcases List.mem_cons.1 hz with hz | hz
      · subst hz
        exact le_of_not_lt hc
      · exact (hy z hz).trans (le_of_not_lt hc)

/-- The sort output is sorted descending by score. -/
theorem pairwise_sortDesc : ∀ l : List (String × ℚ),
    (sortDesc l).Pairwise (fun a b => b.2 ≤ a.2) := by
  intro l
  induction l with
  | nil => exact List.Pairwise.nil
  | cons x xs ih =>
    rw [sortDesc]
    exact pairwise_insertDesc x (sortDesc xs) ih

/-- Inserting an element either prepends it to the filtered-by-its-score
sublist or leaves every other score's sublist untouched: the walked-over
prefix consists of strictly greater scores only. -/
theorem filter_insertDesc (c : ℚ) (x : String × ℚ) :
    ∀ l : List (String × ℚ),
    (insertDesc x l).filter (fun a => a.2 == c) =
      if x.2 = c then x :: l.filter (fun a => a.2 == c)
      else l.filter (fun a => a.2 == c) := by
  intro l
  induction l with
  | nil =>
    by_cases h : x.2 = c
    · simp [insertDesc, List.filter_cons, h]
    · simp [insertDesc, List.filter_cons, h]
  | cons y ys ih =>
    rw [insertDesc]
    by_cases hc : x.2 < y.2
    · rw [if_pos hc]
      by_cases hy : y.2 = c
      · have hxc : ¬x.2 = c := fun hx => absurd (hx.trans hy.symm) (ne_of_lt hc)
        simp [List.filter_cons, hy, hxc, ih]
      · simp [List.filter_cons, hy, ih]
    · rw [if_neg hc]
      by_cases hx : x.2 = c
      · simp [List.filter_cons, hx]
      · simp [List.filter_cons, hx]

/-- The sort is stable: the sublist at any fixed score is unchanged. -/
theorem sortDesc_filter (c : ℚ) :
    ∀ l : List (String × ℚ),
    (sortDesc l).filter (fun a => a.2 == c) = l.filter (fun a => a.2 == c) := by
  intro l
  induction l with
  | nil => rfl
  | cons x xs ih =>
    rw [sortDesc, filter_insertDesc]
    by_cases h : x.2 = c
    · rw [if_pos h, ih, List.filter_cons, if_pos (by simp [h])]
    · rw [if_neg h, ih, List.filter_cons, if_neg (by simp [h])]

/-- C7: the final ranking of the report lists exactly the roster's
(player, total) pairs — a permutation of them — sorted by total score
descending; and the tie policy is stability on roster order: for every
score value c, the ranking's entries with total c are precisely the
roster's entries with total c in their original roster order. -/
theorem ranking_sorted_stable (player_names : List String)
    (total_scores : String → ℚ) :
    (rankingList player_names total_scores).Perm
      (player_names.map fun p => (p, total_scores p)) ∧
    (rankingList player_names total_scores).Pairwise (fun a b => b.2 ≤ a.2) ∧
    ∀ c : ℚ, (rankingList player_names total_scores).filter (fun a => a.2 == c) =
      (player_names.map fun p => (p, total_scores p)).filter (fun a => a.2 == c) :=
  ⟨perm_sortDesc _, pairwise_sortDesc _, fun c => sortDesc_filter c _⟩

/-- The retry loop returns the IP echo whenever every attempt fails. -/
theorem tryAttempts_fail (ip : String) (oracle : Nat → FetchResult) :
    ∀ l : List Nat, (∀ a ∈ l, (oracle a).isFailure = true) →
    tryAttempts ip oracle l = "IP: " ++ ip := by
  intro l
  induction l with
  | nil => intro _; rfl
  | cons a rest ih =>
    intro h
    rw [tryAttempts]
    cases hc : oracle a with
    | success x y z =>
      have hfa := h a (List.mem_cons_self a rest)
      rw [hc] at hfa
      exact absurd hfa (by simp [FetchResult.isFailure])
    | rateLimited => rfl
    | jsonFailure => exact ih fun b hb => h b (List.mem_cons_of_mem a hb)
    | otherStatus => exact ih fun b hb => h b (List.mem_cons_of_mem a hb)
    | requestFailure => exact ih fun b hb => h b (List.mem_cons_of_mem a hb)

/-- C8 (amended): every IP matching the source's local-network test —
exactly 127.0.0.1, the literal localhost, or the prefixes 192.168., 10.,
172.16. and 172.31. — resolves to the local-network label without
contacting the external service; and whenever every attempt fails (request
exception such as a timeout, rate-limiting, a malformed 200 body, or any
other status), the resolver returns the literal echo "IP: " followed by
the address. Private addresses in 172.17.* through 172.30.* and loopback
addresses other than 127.0.0.1 do not match the test (see the
counterexample) and are sent to the service. -/
theorem ip_location_fallbacks (ip : String) (oracle : Nat → FetchResult) :
    (isLocalIp ip = true → get_ip_location ip oracle = ("本地网络", false)) ∧
    (isLocalIp ip = false → load_balancer_ips.contains ip = false →
      (∀ a, (oracle a).isFailure = true) →
      get_ip_location ip oracle = ("IP: " ++ ip, true)) := by
  constructor
  · intro h
    simp [get_ip_location, h]
  · intro h hlb hfail
    simp only [get_ip_location, h, hlb, Bool.false_eq_true, if_false]
    rw [tryAttempts_fail ip oracle [0, 1] fun a _ => hfail a]

/-- Witness for ip_location_fallbacks: a 192.168.* address resolves locally
without contact; a public address with both attempts failing echoes. -/
theorem ip_location_fallbacks_witness :
    isLocalIp "192.168.1.5" = true ∧
    get_ip_location "192.168.1.5" (fun _ => .requestFailure) = ("本地网络", false) ∧
    isLocalIp "8.8.8.8" = false ∧
    load_balancer_ips.contains "8.8.8.8" = false ∧
    (∀ a, ((fun (_ : Nat) => FetchResult.requestFailure) a).isFailure = true) ∧
    get_ip_location "8.8.8.8" (fun _ => .requestFailure) = ("IP: 8.8.8.8", true) := by
  refine ⟨by decide,
    (ip_location_fallbacks "192.168.1.5" (fun _ => .requestFailure)).1 (by decide),
    by decide, by decide, fun a => rfl, ?_⟩
  rw [(ip_location_fallbacks "8.8.8.8" (fun _ => .requestFailure)).2 (by decide)
    (by decide) (fun a => rfl)]
  decide

/-- Counterexample to C8 as stated: 172.17.0.1 lies in the private block
172.16.0.0/12, yet the resolver does not return the local-network label
for it — the source's prefix test misses 172.17.* through 172.30.*, so the
address is sent to the external service, and (with every attempt failing
here) it falls back to the IP echo instead. -/
theorem ip_location_private_cex :
    specPrivateOrLoopback "172.17.0.1" = true ∧
    isLocalIp "172.17.0.1" = false ∧
    get_ip_location "172.17.0.1" (fun _ => .requestFailure) =
      ("IP: 172.17.0.1", true) ∧
    specPrivateOrLoopback "127.0.0.2" = true ∧
    isLocalIp "127.0.0.2" = false := by
  exact ⟨by decide, by decide, by decide, by decide, by decide⟩

/-- C9 (amended): the first entry of a comma-separated X-Forwarded-For
header, when non-blank after stripping, takes precedence and is returned
after the colon-truncation step; when none of the five proxy headers
(X-Forwarded-For, X-Real-IP, HTTP_X_FORWARDED_FOR, HTTP_X_REAL_IP, and a
for=-leading Forwarded) yields a value, the raw connection address is used,
again colon-truncated, with the fixed Unknown fallback when the result is
empty. The truncation cuts at the first colon wherever it occurs, which
strips a :port suffix from an IPv4 address but also mangles any address
that itself contains a colon (see the counterexample). -/
theorem real_ip_resolution (headers : String → String) (remote_addr : String) :
    (pyStrip (splitFirst ',' (headers "X-Forwarded-For")) ≠ "" →
      get_real_ip headers remote_addr =
        (if stripPort (pyStrip (splitFirst ',' (headers "X-Forwarded-For"))) = ""
         then "Unknown"
         else stripPort (pyStrip (splitFirst ',' (headers "X-Forwarded-For"))))) ∧
    (pyStrip (splitFirst ',' (headers "X-Forwarded-For")) = "" →
     pyStrip (headers "X-Real-IP") = "" →
     pyStrip (splitFirst ',' (headers "HTTP_X_FORWARDED_FOR")) = "" →
     pyStrip (headers "HTTP_X_REAL_IP") = "" →
     pyStartsWith (pyStrip (splitFirst ',' (headers "Forwarded"))) "for=" = false →
      get_real_ip headers remote_addr =
        (if stripPort remote_addr = "" then "Unknown" else stripPort remote_addr)) := by
  constructor
  · intro h1
    simp [get_real_ip, h1]
  · intro h1 h2 h3 h4 h5
    simp [get_real_ip, h1, h2, h3, h4, h5]

/-- A header map carrying a forwarded-for chain whose first entry has a
port suffix, plus a remote address. -/
def xffHeaders : String → String :=
  fun n => if n = "X-Forwarded-For" then " 1.2.3.4:8080 , 5.6.7.8" else ""

/-- Witness for real_ip_resolution: the chain's first entry wins and loses
its port; with no headers at all the raw connection address is returned. -/
theorem real_ip_resolution_witness :
    pyStrip (splitFirst ',' (xffHeaders "X-Forwarded-For")) ≠ "" ∧
    get_real_ip xffHeaders "9.9.9.9" = "1.2.3.4" ∧
    pyStrip (splitFirst ',' ((fun (_ : String) => "") "X-Forwarded-For")) = "" ∧
    pyStartsWith (pyStrip (splitFirst ',' ((fun (_ : String) => "") "Forwarded")))
      "for=" = false ∧
    get_real_ip (fun (_ : String) => "") "9.9.9.9" = "9.9.9.9" := by
  refine ⟨by decide, ?_, by decide, by decide, ?_⟩
  · rw [(real_ip_resolution xffHeaders "9.9.9.9").1 (by decide)]
    decide
  · rw [(real_ip_resolution (fun (_ : String) => "") "9.9.9.9").2 (by decide)
      (by decide) (by decide) (by decide) (by decide)]
    decide

/-- A header map carrying only X-Real-IP. -/
def realIpOnlyHeaders : String → String :=
  fun n => if n = "X-Real-IP" then "1.2.3.4" else ""

/-- Counterexample to C9 as stated: (i) with no forwarded-for header
present the code does not fall back to the raw connection address — the
intermediate X-Real-IP header wins instead; (ii) the final truncation is
not a pure port strip: a colon-bearing (IPv6) connection address is cut
down to its first group, changing the address itself. -/
theorem real_ip_resolution_cex :
    get_real_ip realIpOnlyHeaders "9.9.9.9" = "1.2.3.4" ∧
    "1.2.3.4" ≠ "9.9.9.9" ∧
    get_real_ip (fun (_ : String) => "") "2001:db8::1" = "2001" := by
  exact ⟨by decide, by decide, by decide⟩
